import Mathlib

/-!
Verification of the redbird reverse proxy (index.js) against its
natural-language specification.

Strings are modelled as `List Char` (JS strings are sequences of code
units; the URLs and codes at issue are ASCII).  Stateful code is modelled
by explicit state passing.  Functions are translated from the JS source;
definitions whose doc comment says so follow the specification's words
instead, for refinement comparisons.
-/

/-- JS strings, modelled as lists of characters. -/
abbrev Str := List Char

/-- From index.js, function `startsWith(input, str)`:
`input.slice(0, str.length) === str && (input.length === str.length ||
input[str.length] === '/' || input[str.length] === '?')`.
`input[i]` out of range is `undefined`, which differs from any character,
hence `List.get?`. -/
def startsWith (input str : Str) : Bool :=
  decide (input.take str.length = str) &&
    (decide (input.length = str.length) ||
      decide (input.get? str.length = some '/') ||
      decide (input.get? str.length = some '?'))

/-!
Model of Node's `path.posix.join` / `path.posix.normalize` (an external
library call made by `_getRouteTarget`).  `join(a, b)` concatenates the
non-empty arguments with `/` and normalizes the result; `normalize`
resolves `.` and `..` segments, collapses repeated separators, and
preserves a trailing separator.
-/

/-- Split a string at every `/`; separators are dropped, empty pieces kept. -/
def splitOnSlash : Str → List Str
  | [] => [[]]
  | c :: rest =>
    if c = '/' then [] :: splitOnSlash rest
    else
      match splitOnSlash rest with
      | [] => [[c]]
      | s :: ss => (c :: s) :: ss

/-- One step of segment normalization: `.` is dropped; `..` pops the last
segment unless there is none or it is itself a `..` (in which case it is
kept for relative paths and dropped for absolute ones); any other segment
is appended. -/
def segStep (abs : Bool) (stack : List Str) (seg : Str) : List Str :=
  if seg = ['.'] then stack
  else if seg = ['.', '.'] then
    if stack = [] then (if abs then stack else stack ++ [seg])
    else if stack.getLast? = some ['.', '.'] then (if abs then stack else stack ++ [seg])
    else stack.dropLast
  else stack ++ [seg]

/-- Node `path.posix.normalize`. -/
def posixNormalize (p : Str) : Str :=
  if p = [] then ['.']
  else
    let abs : Bool := decide (p.head? = some '/')
    let trail : Bool := decide (p.getLast? = some '/')
    let segs := ((splitOnSlash p).filter (fun s => !decide (s = []))).foldl (segStep abs) []
    let core := List.intercalate ['/'] segs
    if core = [] then
      if abs then ['/'] else if trail then ['.', '/'] else ['.']
    else
      (if abs then '/' :: core else core) ++ (if trail then ['/'] else [])

/-- Node `path.posix.join` restricted to two arguments, as called by
`_getRouteTarget`: empty arguments are skipped, the rest are joined with
`/` and normalized; with no non-empty argument the result is `.`. -/
def posixJoin (a b : Str) : Str :=
  if a = [] ∧ b = [] then ['.']
  else if a = [] then posixNormalize b
  else if b = [] then posixNormalize a
  else posixNormalize (a ++ '/' :: b)

/-!
URL rewriting, from `_getRouteTarget` (index.js):

    if (pathname.length > 1) { req._url = url; req.url = url.substr(pathname.length) || ''; }
    ...
    if (target.pathname) {
      if (req.url) {
        if (req.url[0] === '?') { req.url = target.pathname + req.url; }
        else { req.url = path.posix.join(target.pathname, req.url); }
      } else { req.url = target.pathname; }
    }
-/

/-- Strip a matched route path of length > 1 from the front of the URL
(`url.substr(pathname.length) || ''`). -/
def stripUrl (routePath url : Str) : Str :=
  if routePath.length > 1 then url.drop routePath.length else url

/-- Apply the chosen target's pathname to the (stripped) request URL,
from the `if (target.pathname)` block of `_getRouteTarget`. -/
def applyTargetPathname (tPathname rest : Str) : Str :=
  if tPathname = [] then rest
  else if rest = [] then tPathname
  else if rest.head? = some '?' then tPathname ++ rest
  else posixJoin tPathname rest

/-- The complete URL rewrite performed by `_getRouteTarget` for a matched
route path and a chosen target pathname. -/
def rewriteUrl (routePath tPathname url : Str) : Str :=
  applyTargetPathname tPathname (stripUrl routePath url)

/-- Modelled from the claim's words (for comparison with `rewriteUrl`):
strip the route path if its length exceeds 1; then, if the target pathname
is non-empty, concatenate it directly when the remaining URL begins with
`?`, and otherwise join the two with POSIX path join. -/
def rewriteUrlClaim (routePath tPathname url : Str) : Str :=
  let rest := stripUrl routePath url
  if tPathname = [] then rest
  else if rest.head? = some '?' then tPathname ++ rest
  else posixJoin tPathname rest

/-!
Routing table data model (index.js `register` / `unregister`).

A target is the URL object produced by `ReverseProxy.buildTarget`
(`prepareUrl` plus the `sslRedirect` / `useTargetHostHeader` flags);
`register` and `unregister` apply `prepareUrl` to the same input, so the
same source string yields the same `href`.  Route options and proxy
handles are opaque to the routing code, hence type parameters `O`, `P`.
-/

/-- A parsed target URL as stored in `route.urls`. -/
structure Target where
  href : Str
  pathname : Str
  host : Str
  sslRedirect : Bool
  useTargetHostHeader : Bool
deriving DecidableEq

/-- A route record `{path, rr, urls, opts, proxy}` of the routing table. -/
structure Route (O P : Type) where
  path : Str
  rr : Nat
  urls : List Target
  opts : O
  proxy : P
deriving DecidableEq

/-- The routing table: hostname keyed buckets, in key-insertion order
(JS object key order). -/
abbrev Table (O P : Type) := List (Str × List (Route O P))

/-- Read a key of the routing table (`this.routing[hostname]`). -/
def lookupT {O P : Type} : Table O P → Str → Option (List (Route O P))
  | [], _ => none
  | (k, v) :: rest, h => if k = h then some v else lookupT rest h

/-- Write a key of the routing table; a fresh key is appended, matching
JS object key-insertion order. -/
def setKey {O P : Type} : Table O P → Str → List (Route O P) → Table O P
  | [], h, v => [(h, v)]
  | (k, w) :: rest, h, v => if k = h then (k, v) :: rest else (k, w) :: setKey rest h v

/-- `src.pathname || '/'`. -/
def normalizePathname (p : Str) : Str :=
  if p = [] then "/".data else p

/-- A freshly created route: `{path: pathname, rr: 0, urls: [], opts, proxy}`
followed by `route.urls.push(target)`. -/
def createRoute {O P : Type} (pathname : Str) (tgt : Target) (opts : O) (proxy : P) :
    Route O P :=
  { path := pathname, rr := 0, urls := [tgt], opts := opts, proxy := proxy }

/-- `route.urls.push(target)` on an existing route. -/
def appendTarget {O P : Type} (r : Route O P) (tgt : Target) : Route O P :=
  { r with urls := r.urls ++ [tgt] }

/-- `_.remove(route.urls, url => url.href === target.href)`: the urls kept
are those whose `href` differs from the unregistered target's. -/
def removeTargets {O P : Type} (r : Route O P) (tgt : Target) : Route O P :=
  { r with urls := r.urls.filter (fun u => !decide (u.href = tgt.href)) }

/-- Round-robin selection from `_getRouteTarget`:
`var j = route.rr; route.rr = (j + 1) % urls.length; var target = route.urls[j];`
(when `urls` is empty the selected element is `undefined` and the request
errors; the JS `%` additionally yields `NaN` there, a state the request
path never returns). -/
def selectTarget {O P : Type} (r : Route O P) : Option Target × Route O P :=
  (r.urls.get? r.rr, { r with rr := (r.rr + 1) % r.urls.length })

/-- `_.sortBy(host, r => -r.path.length)`: insertion step of the stable
sort by descending path length. -/
def insertRoute {O P : Type} (r : Route O P) : List (Route O P) → List (Route O P)
  | [] => [r]
  | x :: xs => if r.path.length < x.path.length then x :: insertRoute r xs else r :: x :: xs

/-- `_.sortBy(host, r => -r.path.length)`: stable sort by descending path
length, ties in input order. -/
def sortRoutes {O P : Type} : List (Route O P) → List (Route O P)
  | [] => []
  | x :: xs => insertRoute x (sortRoutes xs)

/-- Push a target onto the first route matching the pathname
(`_.find(host, {path: pathname})` returns a reference that is mutated). -/
def pushUrlFirst {O P : Type} (pathname : Str) (tgt : Target) :
    List (Route O P) → List (Route O P)
  | [] => []
  | r :: rs => if r.path = pathname then appendTarget r tgt :: rs else r :: pushUrlFirst pathname tgt rs

/-- `ReverseProxy.prototype.register` restricted to the routing table
(certificate handling acts on `this.certs`, not the table; the proxy
handle `_getProxy(src, target, opts)` is evaluated by the caller and
passed in as `proxy`, and is only used when a route is created). -/
def register {O P : Type} (t : Table O P) (host path0 : Str) (tgt : Target)
    (opts : O) (proxy : P) : Table O P :=
  let pathname := normalizePathname path0
  let bucket := (lookupT t host).getD []
  match bucket.find? (fun r => decide (r.path = pathname)) with
  | some _ => setKey t host (pushUrlFirst pathname tgt bucket)
  | none => setKey t host (sortRoutes (bucket ++ [createRoute pathname tgt opts proxy]))

/-- Inner loop of `unregister`: find the first route with the pathname,
filter its urls by `href` (or clear them when no target is given), and
splice the route out when its urls become empty. -/
def removeFromBucket {O P : Type} (pathname : Str) (tgt? : Option Target) :
    List (Route O P) → List (Route O P)
  | [] => []
  | r :: rs =>
    if r.path = pathname then
      let urls2 := match tgt? with
        | some tgt => r.urls.filter (fun u => !decide (u.href = tgt.href))
        | none => []
      if urls2 = [] then rs else { r with urls := urls2 } :: rs
    else r :: removeFromBucket pathname tgt? rs

/-- `ReverseProxy.prototype.unregister` restricted to the routing table
(the certificate cleanup acts on `this.certs`).  A hostname without a
bucket leaves the table untouched; an existing bucket key is never
removed, even when its route list becomes empty. -/
def unregister {O P : Type} (t : Table O P) (host path0 : Str) (tgt? : Option Target) :
    Table O P :=
  match lookupT t host with
  | none => t
  | some bucket => setKey t host (removeFromBucket (normalizePathname path0) tgt? bucket)

/-- A host bucket sorted by descending path length (the invariant
`register` maintains via `_.sortBy`). -/
def bucketSorted {O P : Type} (b : List (Route O P)) : Prop :=
  List.Pairwise (fun a c => c.path.length ≤ a.path.length) b

/-- Route states reachable through the operations the proxy performs on a
single route record: creation by `register`, target append by a later
`register`, round-robin selection by `_getRouteTarget`, and partial
`unregister` (which keeps the route only while urls remain). -/
inductive RouteReachable : Route Unit Unit → Prop where
  | created (pathname : Str) (tgt : Target) :
      RouteReachable (createRoute pathname tgt () ())
  | registered (r : Route Unit Unit) (tgt : Target) :
      RouteReachable r → RouteReachable (appendTarget r tgt)
  | selected (r : Route Unit Unit) :
      RouteReachable r → r.urls ≠ [] → RouteReachable (selectTarget r).2
  | unregistered (r : Route Unit Unit) (tgt : Target) :
      RouteReachable r → (removeTargets r tgt).urls ≠ [] →
      RouteReachable (removeTargets r tgt)

/-- Proof-side characterization (not part of the JS model): insert a route
after all routes of greater or equal path length — where a stable
descending sort puts a newly appended element. -/
def insertA {O P : Type} (r : Route O P) : List (Route O P) → List (Route O P)
  | [] => [r]
  | x :: xs => if r.path.length ≤ x.path.length then x :: insertA r xs else r :: x :: xs

/-!
Resolver pipeline (index.js `addResolver` / `removeResolver`).

A resolver is a JS function object; identity is modelled by `fnId`.  Each
carries an integer `priority` (`addResolver` assigns 0 when absent, so
every stored resolver has one).
-/

/-- A resolver function object with its `priority` property. -/
structure Resolver where
  fnId : Nat
  priority : Int
deriving DecidableEq

/-- `_.uniq`: keep the first occurrence of each element. -/
def uniqFirstAux {α : Type} [DecidableEq α] (seen : List α) : List α → List α
  | [] => []
  | x :: xs => if x ∈ seen then uniqFirstAux seen xs else x :: uniqFirstAux (x :: seen) xs

/-- `_.uniq`. -/
def uniqFirst {α : Type} [DecidableEq α] (l : List α) : List α :=
  uniqFirstAux [] l

/-- Stable-insertion step of `_.sortBy(resolvers, ['priority'])`
(ascending, ties keep input order). -/
def insertAsc (r : Resolver) : List Resolver → List Resolver
  | [] => [r]
  | x :: xs => if x.priority < r.priority then x :: insertAsc r xs else r :: x :: xs

/-- `_.sortBy(resolvers, ['priority'])`: stable ascending sort by
priority. -/
def sortAscStable : List Resolver → List Resolver
  | [] => []
  | x :: xs => insertAsc x (sortAscStable xs)

/-- `ReverseProxy.prototype.addResolver`: push the new resolvers, then
`this.resolvers = _.sortBy(_.uniq(this.resolvers), ['priority']).reverse()`. -/
def addResolver (cur add : List Resolver) : List Resolver :=
  (sortAscStable (uniqFirst (cur ++ add))).reverse

/-- Modelled from the claim's words (for comparison with `addResolver`):
stable sort by descending priority, equal priorities keeping insertion
order — insertion step. -/
def insertDescStable (r : Resolver) : List Resolver → List Resolver
  | [] => [r]
  | x :: xs => if r.priority < x.priority then x :: insertDescStable r xs else r :: x :: xs

/-- Modelled from the claim's words: stable descending sort by priority. -/
def sortDescStable : List Resolver → List Resolver
  | [] => []
  | x :: xs => insertDescStable x (sortDescStable xs)

/-- Modelled from the claim's words: the pipeline order the claim
describes — duplicates removed, descending priority, ties in insertion
order. -/
def claimResolverOrder (cur add : List Resolver) : List Resolver :=
  sortDescStable (uniqFirst (cur ++ add))

/-!
`resolve` / `ReverseProxy.buildRoute` (index.js).

`buildRoute` coerces a resolver result: a route-shaped object (own `urls`
and `path`) is returned as-is; a string becomes a one-target route with
path `/`; an object with a `url` field becomes a route with
`path = route.path || '/'`; anything else is rejected.  Coerced routes are
marked `isResolved`.  (The LRU route cache returns the previously built
object for the same input and is semantically transparent here.)
-/

/-- A route as seen by `resolve` after coercion: its matched `path`, its
target list (urls as given to `buildTarget`), and the `isResolved` mark. -/
structure ResRoute where
  path : Str
  urls : List Str
  isResolved : Bool
deriving DecidableEq

/-- A resolver result: a string, a route-shaped object (own `urls` and
`path`), an object with a `url` field and optional `path`, or anything
else (non-string non-object, or an object without `url`). -/
inductive RouteInput where
  | str (s : Str)
  | table (r : ResRoute)
  | descr (urls : List Str) (path : Option Str)
  | invalid
deriving DecidableEq

/-- `ReverseProxy.buildRoute`. -/
def buildRoute : RouteInput → Option ResRoute
  | .str s => some { path := "/".data, urls := [s], isResolved := true }
  | .table r => some r
  | .descr urls path? =>
    some { path := match path? with
            | some p => if p = [] then "/".data else p
            | none => "/".data,
           urls := urls, isResolved := true }
  | .invalid => none

/-- The acceptance test of `resolve`:
`!route.isResolved || route.path === '/' || startsWith(url, route.path)`. -/
def routeGuard (url : Str) (r : ResRoute) : Bool :=
  !r.isResolved || decide (r.path = "/".data) || startsWith url r.path

/-- The scan in `resolve` over the settled resolver results, in pipeline
order: skip falsy results and results `buildRoute` rejects; return the
first coerced route passing `routeGuard`. -/
def resolveScan (url : Str) : List (Option RouteInput) → Option ResRoute
  | [] => none
  | none :: rest => resolveScan url rest
  | some ri :: rest =>
    match buildRoute ri with
    | none => resolveScan url rest
    | some route => if routeGuard url route then some route else resolveScan url rest

/-!
Request / response state and the proxy engine pieces
(`_getRouteTarget`, `handleProxyError`, the not-found responder).
-/

/-- The mutable request fields the proxy touches: `req.url`, the saved
`req._url`, and the `req.host` override. -/
structure Req where
  url : Str
  origUrl : Option Str
  host : Option Str
deriving DecidableEq

/-- The response state: status code, whether headers were sent, the body
written so far, and whether the response was ended. -/
structure Res where
  statusCode : Nat
  headersSent : Bool
  body : Str
  ended : Bool
deriving DecidableEq

/-- `res.writeHead(code)`: set the status and send the headers. -/
def writeHead (code : Nat) (res : Res) : Res :=
  { res with statusCode := code, headersSent := true }

/-- `res.write(chunk)`: append to the body (sending headers). -/
def resWrite (chunk : Str) (res : Res) : Res :=
  { res with body := res.body ++ chunk, headersSent := true }

/-- `res.end(chunk)`: append and finish the response. -/
def resEnd (chunk : Str) (res : Res) : Res :=
  { res with body := res.body ++ chunk, headersSent := true, ended := true }

/-- `ReverseProxy.prototype.handleProxyError` (index.js): 502 on
`ECONNREFUSED`, else 500 when headers were not yet sent; always end with
the error code as body.  (`res.writeHead` exists on HTTP responses; the
`res.writeHead &&` guard only matters for raw sockets.) -/
def handleProxyError (errCode : Str) (res : Res) : Res :=
  let res1 :=
    if errCode = "ECONNREFUSED".data then writeHead 502 res
    else if !res.headersSent then writeHead 500 res
    else res
  resEnd errCode res1

/-- The value `_getRouteTarget` resolves with as `target`: either the
selected/overriding target or `false` from an `onRequest` hook. -/
inductive TVal where
  | fls
  | tgt (t : Target)
deriving DecidableEq

/-- Result of `route.opts.onRequest(req, res, target)`: `undefined`, or a
defined value (`false` or a target). -/
inductive HookRet where
  | undef
  | ret (v : TVal)

/-- Prefix stripping on the request
(`req._url = url; req.url = url.substr(pathname.length) || ''`,
performed only when `route.path.length > 1`). -/
def rewrittenReq {O P : Type} (route : Route O P) (req : Req) : Req :=
  if route.path.length > 1 then
    { req with origUrl := some req.url, url := req.url.drop route.path.length }
  else req

/-- Target-pathname application and the `useTargetHostHeader` host
override, from `_getRouteTarget`. -/
def targetAdjustedReq (target : Target) (req : Req) : Req :=
  let req2 := { req with url := applyTargetPathname target.pathname req.url }
  if target.useTargetHostHeader then { req2 with host := some target.host } else req2

/-- `ReverseProxy.prototype._getRouteTarget` for an already-resolved
route: rewrite the URL, select the round-robin target, apply the target
pathname and host override, then consult `route.opts.onRequest` (read via
the accessor `onReq`); a defined hook result replaces the target.
`none` models the exception thrown when `route.urls[j]` is `undefined`. -/
def getRouteTarget {O P : Type} (onReq : O → Option (Req → Target → HookRet))
    (route : Route O P) (req : Req) : Option (Route O P × Req × TVal) :=
  match route.urls.get? route.rr with
  | none => none
  | some target =>
    let route2 := { route with rr := (route.rr + 1) % route.urls.length }
    let req3 := targetAdjustedReq target (rewrittenReq route req)
    match onReq route.opts with
    | some f =>
      match f req3 target with
      | .undef => some (route2, req3, .tgt target)
      | .ret v => some (route2, req3, v)
    | none => some (route2, req3, .tgt target)

/-- What `_createHttpServer` does with the resolved target:
`if (target === false) return null;` (the hook handled the request),
otherwise forward to the target. -/
inductive ForwardDecision where
  | skip
  | forward (t : Target)
deriving DecidableEq

/-- The forwarding decision of the request handler in `_createHttpServer`
/ `_createHttpsServer` (the HTTPS-redirect branch is conditioned on
certificates and is out of scope here). -/
def forwardAction : TVal → ForwardDecision
  | .fls => .skip
  | .tgt t => .forward t

/-!
`notFound` (index.js): `respondNotFound` is a module-level variable read
by the HTTP handler, the HTTPS handler and `_websocketsUpgrade` at call
time, so replacing it affects every `ReverseProxy` instance in the
process.
-/

/-- The default module-level responder:
`res.statusCode = 404; res.write('Not Found'); res.end();`. -/
def defaultRespondNotFound (res : Res) : Res :=
  resEnd [] (resWrite "Not Found".data { res with statusCode := 404 })

/-- The module-level state of index.js: the current `respondNotFound`. -/
structure ProxyModule where
  respondNotFoundCb : Req → Res → Res

/-- The argument given to `notFound`: a function, or any non-function
value (which the `assert` rejects). -/
inductive JsCallbackArg where
  | func (f : Req → Res → Res)
  | notFunc

/-- `ReverseProxy.prototype.notFound`: assert the argument is a function
and assign the module-level `respondNotFound`. -/
def notFound (_m : ProxyModule) (arg : JsCallbackArg) : Except Str ProxyModule :=
  match arg with
  | .func f => .ok { respondNotFoundCb := f }
  | .notFunc => .error "notFound callback is not a function".data

/-- A `ReverseProxy` instance, as far as the not-found path observes it
(no instance field takes part in the 404 response). -/
structure Inst where
  instId : Nat

/-- The 404 path of the HTTP request handler (`_createHttpServer`):
`respondNotFound(req, res)` — the module variable, not instance state. -/
def serverRespondNotFound (m : ProxyModule) (_inst : Inst) (req : Req) (res : Res) : Res :=
  m.respondNotFoundCb req res

/-- The 404 path of the HTTPS request handler (`_createHttpsServer`). -/
def httpsServerRespondNotFound (m : ProxyModule) (_inst : Inst) (req : Req) (res : Res) : Res :=
  m.respondNotFoundCb req res

/-- The 404 path of `_websocketsUpgrade` (called on the raw socket). -/
def websocketsRespondNotFound (m : ProxyModule) (_inst : Inst) (req : Req) (res : Res) : Res :=
  m.respondNotFoundCb req res

/-! Concrete example values used in counterexamples and witnesses. -/

/-- Example target `http://a/` (empty pathname). -/
def tAlpha : Target :=
  { href := "http://a/".data, pathname := [], host := "a".data,
    sslRedirect := false, useTargetHostHeader := false }

/-- Example target `http://b/` (empty pathname). -/
def tBeta : Target :=
  { href := "http://b/".data, pathname := [], host := "b".data,
    sslRedirect := false, useTargetHostHeader := false }

/-- Example hostname. -/
def hostEx : Str := "example.com".data

/-- A routing table holding one route for `/` on `hostEx` with the single
target `tAlpha`. -/
def tDup : Table Unit Unit :=
  [(hostEx, [{ path := "/".data, rr := 0, urls := [tAlpha], opts := (), proxy := () }])]

/-- The route state reached by `register t1; register t2; one request;
unregister t1` on one route: urls `[tBeta]` but round-robin index 1. -/
def badRoute : Route Unit Unit :=
  removeTargets ((selectTarget (appendTarget (createRoute "/".data tAlpha () ()) tBeta)).2) tAlpha

/-! Helper lemmas. -/

theorem lookupT_setKey_self {O P : Type} (t : Table O P) (h : Str) (v : List (Route O P)) :
    lookupT (setKey t h v) h = some v := by
  induction t with
  | nil => simp [setKey, lookupT]
  | cons kv rest ih =>
    obtain ⟨k, w⟩ := kv
    by_cases hk : k = h
    · simp [setKey, lookupT, hk]
    · simp [setKey, lookupT, hk, ih]

theorem lookupT_setKey_ne {O P : Type} (t : Table O P) (h h2 : Str) (v : List (Route O P))
    (hne : h2 ≠ h) : lookupT (setKey t h v) h2 = lookupT t h2 := by
  induction t with
  | nil => simp [setKey, lookupT, Ne.symm hne]
  | cons kv rest ih =>
    obtain ⟨k, w⟩ := kv
    by_cases hk : k = h
    · subst hk
      simp [setKey, lookupT, Ne.symm hne]
    · simp [setKey, lookupT, hk, ih]

theorem setKey_setKey {O P : Type} (t : Table O P) (h : Str) (v w : List (Route O P)) :
    setKey (setKey t h v) h w = setKey t h w := by
  induction t with
  | nil => simp [setKey]
  | cons kv rest ih =>
    obtain ⟨k, u⟩ := kv
    by_cases hk : k = h
    · simp [setKey, hk]
    · simp [setKey, hk, ih]

theorem setKey_self {O P : Type} (t : Table O P) (h : Str) (v : List (Route O P))
    (hb : lookupT t h = some v) : setKey t h v = t := by
  induction t with
  | nil => simp [lookupT] at hb
  | cons kv rest ih =>
    obtain ⟨k, w⟩ := kv
    by_cases hk : k = h
    · subst hk
      have hb2 : w = v := by simpa [lookupT] using hb
      subst hb2
      simp [setKey]
    · simp only [lookupT, if_neg hk] at hb
      simp [setKey, hk, ih hb]

theorem removeFromBucket_pushUrlFirst {O P : Type} (pathname : Str) (tgt : Target)
    (B : List (Route O P))
    (hurls : ∀ r ∈ B, r.path = pathname → (∀ u ∈ r.urls, u.href ≠ tgt.href) ∧ r.urls ≠ []) :
    removeFromBucket pathname (some tgt) (pushUrlFirst pathname tgt B) = B := by
  induction B with
  | nil => rfl
  | cons r rs ih =>
    by_cases hp : r.path = pathname
    · obtain ⟨hnh, hne⟩ := hurls r (by simp) hp
      subst hp
      have hfil : (r.urls ++ [tgt]).filter (fun u => !decide (u.href = tgt.href)) = r.urls := by
        rw [List.filter_append]
        have h1 : r.urls.filter (fun u => !decide (u.href = tgt.href)) = r.urls :=
          List.filter_eq_self.mpr (fun u hu => by simpa using hnh u hu)
        simp [h1]
      simp [pushUrlFirst, removeFromBucket, appendTarget, hfil, hne]
    · have ih' := ih (fun z hz hzp => hurls z (List.mem_cons_of_mem _ hz) hzp)
      simp [pushUrlFirst, hp, removeFromBucket, ih']

theorem sortRoutes_append_one {O P : Type} (B : List (Route O P)) (a : Route O P)
    (hs : bucketSorted B) :
    sortRoutes (B ++ [a]) = insertA a B := by
  induction B with
  | nil => simp [sortRoutes, insertRoute, insertA]
  | cons x B ih =>
    obtain ⟨hx, hB⟩ := List.pairwise_cons.mp hs
    rw [List.cons_append,
      show sortRoutes (x :: (B ++ [a])) = insertRoute x (sortRoutes (B ++ [a])) from rfl,
      ih hB]
    by_cases h : a.path.length ≤ x.path.length
    · have key : insertRoute x (insertA a B) = x :: insertA a B := by
        cases B with
        | nil =>
          have hlt : ¬(x.path.length < a.path.length) := by omega
          simp [insertA, insertRoute, hlt]
        | cons y B' =>
          by_cases hy : a.path.length ≤ y.path.length
          · have h1 := hx y (by simp)
            have hlt : ¬(x.path.length < y.path.length) := by omega
            simp [insertA, hy, insertRoute, hlt]
          · have hlt : ¬(x.path.length < a.path.length) := by omega
            simp [insertA, hy, insertRoute, hlt]
      rw [key]
      simp [insertA, h]
    · have hxa : x.path.length < a.path.length := by omega
      have hiA : insertA a B = a :: B := by
        cases B with
        | nil => rfl
        | cons y B' =>
          have h1 := hx y (by simp)
          have h2 : ¬(a.path.length ≤ y.path.length) := by omega
          simp [insertA, h2]
      have hiB : insertRoute x B = x :: B := by
        cases B with
        | nil => rfl
        | cons y B' =>
          have h1 := hx y (by simp)
          have h2 : ¬(x.path.length < y.path.length) := by omega
          simp [insertRoute, h2]
      rw [hiA]
      simp [insertRoute, hxa, hiB, insertA, h]

theorem removeFromBucket_insertA {O P : Type} (pathname : Str) (tgt : Target)
    (n : Route O P) (B : List (Route O P))
    (hnp : n.path = pathname)
    (hnu : n.urls.filter (fun u => !decide (u.href = tgt.href)) = [])
    (hB : ∀ y ∈ B, y.path ≠ pathname) :
    removeFromBucket pathname (some tgt) (insertA n B) = B := by
  subst hnp
  induction B with
  | nil => simp [insertA, removeFromBucket, hnu]
  | cons y B' ih =>
    by_cases hy : n.path.length ≤ y.path.length
    · have hyp : y.path ≠ n.path := hB y (by simp)
      have ih' := ih (fun z hz => hB z (List.mem_cons_of_mem _ hz))
      simp [insertA, hy, removeFromBucket, hyp, ih']
    · simp [insertA, hy, removeFromBucket, hnu]

theorem insertAsc_perm (r : Resolver) (l : List Resolver) :
    List.Perm (insertAsc r l) (r :: l) := by
  induction l with
  | nil => exact List.Perm.refl _
  | cons x xs ih =>
    by_cases h : x.priority < r.priority
    · simp only [insertAsc, if_pos h]
      exact (ih.cons x).trans (List.Perm.swap r x xs)
    · simp [insertAsc, h]

theorem sortAscStable_perm (l : List Resolver) : List.Perm (sortAscStable l) l := by
  induction l with
  | nil => exact List.Perm.refl _
  | cons x xs ih => exact (insertAsc_perm x (sortAscStable xs)).trans (ih.cons x)

theorem pairwise_insertAsc (r : Resolver) (l : List Resolver)
    (hl : List.Pairwise (fun a b => a.priority ≤ b.priority) l) :
    List.Pairwise (fun a b => a.priority ≤ b.priority) (insertAsc r l) := by
  induction l with
  | nil => simp [insertAsc]
  | cons x xs ih =>
    obtain ⟨hx, hxs⟩ := List.pairwise_cons.mp hl
    by_cases h : x.priority < r.priority
    · simp only [insertAsc, if_pos h]
      refine List.pairwise_cons.mpr ⟨?_, ih hxs⟩
      intro y hy
      rcases List.mem_cons.mp ((insertAsc_perm r xs).mem_iff.mp hy) with rfl | h1
      · omega
      · exact hx y h1
    · simp only [insertAsc, if_neg h]
      refine List.pairwise_cons.mpr ⟨?_, hl⟩
      intro y hy
      rcases List.mem_cons.mp hy with rfl | h1
      · omega
      · have := hx y h1
        omega

theorem pairwise_sortAscStable (l : List Resolver) :
    List.Pairwise (fun a b => a.priority ≤ b.priority) (sortAscStable l) := by
  induction l with
  | nil => simp [sortAscStable]
  | cons x xs ih => exact pairwise_insertAsc x (sortAscStable xs) ih

theorem uniqFirstAux_nodup {α : Type} [DecidableEq α] (l : List α) (seen : List α) :
    (uniqFirstAux seen l).Nodup ∧ ∀ x ∈ uniqFirstAux seen l, x ∉ seen := by
  induction l generalizing seen with
  | nil => simp [uniqFirstAux]
  | cons x xs ih =>
    by_cases hx : x ∈ seen
    · simpa [uniqFirstAux, hx] using ih seen
    · obtain ⟨hnd, hni⟩ := ih (x :: seen)
      refine ⟨?_, ?_⟩
      · simp only [uniqFirstAux, if_neg hx]
        refine List.nodup_cons.mpr ⟨fun hmem => ?_, hnd⟩
        exact (hni x hmem) (by simp)
      · intro y hy
        simp only [uniqFirstAux, if_neg hx, List.mem_cons] at hy
        rcases hy with rfl | hy
        · exact hx
        · intro hys
          exact hni y hy (by simp [hys])

theorem startsWith_iff_aux (u p : Str) :
    startsWith u p = true ↔
      ((∃ rest, u = p ++ rest) ∧
        (u = p ∨ u.get? p.length = some '/' ∨ u.get? p.length = some '?')) := by
  simp only [startsWith, Bool.and_eq_true, Bool.or_eq_true, decide_eq_true_eq]
  constructor
  · rintro ⟨htake, hrest⟩
    have hpre : u = p ++ u.drop p.length := by
      conv_lhs => rw [← List.take_append_drop p.length u, htake]
    refine ⟨⟨u.drop p.length, hpre⟩, ?_⟩
    rcases hrest with (h | h) | h
    · refine Or.inl ?_
      have h2 : u.take p.length = u := by
        rw [← h]
        exact List.take_length u
      exact h2.symm.trans htake
    · exact Or.inr (Or.inl h)
    · exact Or.inr (Or.inr h)
  · rintro ⟨⟨rest, rfl⟩, hrest⟩
    refine ⟨List.take_left p rest, ?_⟩
    rcases hrest with h | h | h
    · exact Or.inl (Or.inl (congrArg List.length h))
    · exact Or.inl (Or.inr h)
    · exact Or.inr h

theorem resolveScan_eq_find (url : Str) (inputs : List (Option RouteInput)) :
    resolveScan url inputs =
      (inputs.filterMap (fun o => o.bind buildRoute)).find? (routeGuard url) := by
  induction inputs with
  | nil => rfl
  | cons o rest ih =>
    cases o with
    | none => simpa [resolveScan, List.filterMap_cons] using ih
    | some ri =>
      cases hb : buildRoute ri with
      | none => simp [resolveScan, hb, List.filterMap_cons, ih]
      | some route =>
        by_cases hg : routeGuard url route = true
        · simp [resolveScan, hb, List.filterMap_cons, List.find?_cons_of_pos, hg]
        · simp [resolveScan, hb, List.filterMap_cons, List.find?_cons_of_neg, hg, ih]

theorem rewrittenReq_url {O P : Type} (route : Route O P) (req : Req) :
    (rewrittenReq route req).url = stripUrl route.path req.url := by
  unfold rewrittenReq stripUrl
  by_cases h : route.path.length > 1 <;> simp [h]

theorem targetAdjustedReq_url (target : Target) (req : Req) :
    (targetAdjustedReq target req).url = applyTargetPathname target.pathname req.url := by
  unfold targetAdjustedReq
  by_cases h : target.useTargetHostHeader <;> simp [h]

theorem unregister_eq {O P : Type} (t : Table O P) (host path0 : Str)
    (tgt? : Option Target) (b : List (Route O P)) (hb : lookupT t host = some b) :
    unregister t host path0 tgt? =
      setKey t host (removeFromBucket (normalizePathname path0) tgt? b) := by
  unfold unregister
  rw [hb]

theorem find?_first_path {O P : Type} (pathname : Str) (pre post : List (Route O P))
    (r : Route O P) (hpre : ∀ x ∈ pre, x.path ≠ pathname) (hr : r.path = pathname) :
    (pre ++ r :: post).find? (fun x => decide (x.path = pathname)) = some r := by
  induction pre with
  | nil => simp [List.find?_cons_of_pos, hr]
  | cons x xs ih =>
    have hx : x.path ≠ pathname := hpre x (by simp)
    rw [List.cons_append, List.find?_cons_of_neg _ (by simp [hx])]
    exact ih (fun z hz => hpre z (List.mem_cons_of_mem _ hz))

theorem pushUrlFirst_decomp {O P : Type} (pathname : Str) (tgt : Target)
    (pre post : List (Route O P)) (r : Route O P)
    (hpre : ∀ x ∈ pre, x.path ≠ pathname) (hr : r.path = pathname) :
    pushUrlFirst pathname tgt (pre ++ r :: post) = pre ++ appendTarget r tgt :: post := by
  induction pre with
  | nil => simp [pushUrlFirst, hr]
  | cons x xs ih =>
    have hx : x.path ≠ pathname := hpre x (by simp)
    simp [pushUrlFirst, hx, ih (fun z hz => hpre z (List.mem_cons_of_mem _ hz))]

/-- C1: the path test `startsWith(u, p)` returns true iff `u` starts with
`p` and either `u` equals `p` or the character of `u` at index `len(p)` is
`/` or `?`; in particular `/foobar` does not match `/foo` and `/foo` does
not match `/foobar`. -/
theorem startsWith_matches_iff :
    (∀ u p : Str, startsWith u p = true ↔
      ((∃ rest, u = p ++ rest) ∧
        (u = p ∨ u.get? p.length = some '/' ∨ u.get? p.length = some '?'))) ∧
    startsWith "/foobar".data "/foo".data = false ∧
    startsWith "/foo".data "/foobar".data = false ∧
    startsWith "/foo/bar".data "/foo".data = true ∧
    startsWith "/foo?x=1".data "/foo".data = true ∧
    startsWith "/foo".data "/foo".data = true :=
  ⟨startsWith_iff_aux, by decide, by decide, by decide, by decide, by decide⟩

/-- C2 counterexample: for matched route path `/p`, chosen target pathname
`/a/./b` and incoming URL `/p`, the remaining URL is empty and the code
uses the target pathname verbatim (`/a/./b`), while the claim's POSIX-join
reading yields the normalized `/a/b`. -/
theorem rewriteUrl_claim_counterexample :
    rewriteUrl "/p".data "/a/./b".data "/p".data = "/a/./b".data ∧
    rewriteUrlClaim "/p".data "/a/./b".data "/p".data = "/a/b".data ∧
    decide (rewriteUrl "/p".data "/a/./b".data "/p".data =
      rewriteUrlClaim "/p".data "/a/./b".data "/p".data) = false :=
  ⟨by decide, by decide, by decide⟩

/-- C2 (amended): `_getRouteTarget` rewrites the request URL as follows:
a route path of length > 1 is stripped from the front of the incoming URL;
then, if the target has a non-empty pathname: when the remaining URL is
empty the target pathname is used verbatim (not passed through POSIX join,
which would normalize it); when the remaining URL begins with `?` the
target pathname is concatenated directly so no `/` is inserted before the
query; otherwise the two are joined with POSIX path join (e.g. route
`/path`, target pathname `/foo/bar/qux`, incoming `/path?a=b` yields
`/foo/bar/qux?a=b`). -/
theorem rewriteUrl_amended :
    (∀ routePath tPathname url : Str,
      (routePath.length > 1 → stripUrl routePath url = url.drop routePath.length) ∧
      (¬routePath.length > 1 → stripUrl routePath url = url) ∧
      (tPathname = [] → rewriteUrl routePath tPathname url = stripUrl routePath url) ∧
      (tPathname ≠ [] → (stripUrl routePath url).head? = some '?' →
        rewriteUrl routePath tPathname url = tPathname ++ stripUrl routePath url) ∧
      (tPathname ≠ [] → stripUrl routePath url ≠ [] →
        (stripUrl routePath url).head? ≠ some '?' →
        rewriteUrl routePath tPathname url = posixJoin tPathname (stripUrl routePath url)) ∧
      (tPathname ≠ [] → stripUrl routePath url = [] →
        rewriteUrl routePath tPathname url = tPathname)) ∧
    (∀ (route : Route Unit Unit) (req : Req) (target : Target)
        (out : Route Unit Unit × Req × TVal),
      route.urls.get? route.rr = some target →
      getRouteTarget (fun _ => none) route req = some out →
      out.2.1.url = rewriteUrl route.path target.pathname req.url) ∧
    rewriteUrl "/path".data "/foo/bar/qux".data "/path?a=b".data = "/foo/bar/qux?a=b".data := by
  refine ⟨?_, ?_, by decide⟩
  · intro routePath tPathname url
    refine ⟨?_, ?_, ?_, ?_, ?_, ?_⟩
    · intro h
      simp [stripUrl, h]
    · intro h
      simp [stripUrl, h]
    · intro h
      simp [rewriteUrl, applyTargetPathname, h]
    · intro h1 h2
      have h3 : stripUrl routePath url ≠ [] := by
        intro he
        rw [he] at h2
        simp at h2
      simp [rewriteUrl, applyTargetPathname, h1, h2, h3]
    · intro h1 h2 h3
      simp [rewriteUrl, applyTargetPathname, h1, h2, h3]
    · intro h1 h2
      simp [rewriteUrl, applyTargetPathname, h1, h2]
  · intro route req target out hT hG
    unfold getRouteTarget at hG
    rw [hT] at hG
    simp only [Option.some.injEq] at hG
    subst hG
    show (targetAdjustedReq target (rewrittenReq route req)).url = _
    rw [targetAdjustedReq_url, rewrittenReq_url]
    rfl

/-- C2 witness: the amended rewrite rule applied at route path `/p`,
target pathname `/t`, incoming URL `/p/x` (join branch). -/
theorem rewriteUrl_amended_witness :
    rewriteUrl "/p".data "/t".data "/p/x".data =
      posixJoin "/t".data (stripUrl "/p".data "/p/x".data) :=
  (rewriteUrl_amended.1 "/p".data "/t".data "/p/x".data).2.2.2.2.1
    (by decide) (by decide) (by decide)

/-- C3 counterexample: the reachable route state `badRoute` (obtained by
registering two targets, serving one request, then unregistering the
first target) has a non-empty target list of length 1 but round-robin
index 1, so `rr` is not in `[0, |urls|)`. -/
theorem rrIndex_reachable_counterexample :
    RouteReachable badRoute ∧
    badRoute.rr = 1 ∧
    badRoute.urls.length = 1 ∧
    decide (badRoute.rr < badRoute.urls.length) = false :=
  ⟨RouteReachable.unregistered _ _
      (RouteReachable.selected _
        (RouteReachable.registered _ _ (RouteReachable.created _ _)) (by decide))
      (by decide),
    by decide, by decide, by decide⟩

/-- C3 (amended): `rr` starts at 0 on route creation and stays in
`[0, |urls|)` under target registration and round-robin selection; each
selection returns `urls[rr]` and advances `rr` by exactly one modulo
`|urls|`.  (A partial unregister that shrinks `urls` does not adjust `rr`
and can leave it out of range, as the counterexample shows.) -/
theorem rrIndex_amended {O P : Type} :
    (∀ (path0 : Str) (tgt : Target) (o : O) (pr : P),
      (createRoute path0 tgt o pr).rr < (createRoute path0 tgt o pr).urls.length) ∧
    (∀ (r : Route O P) (tgt : Target), r.rr < r.urls.length →
      (appendTarget r tgt).rr < (appendTarget r tgt).urls.length) ∧
    (∀ r : Route O P, r.rr < r.urls.length →
      (selectTarget r).1 = r.urls.get? r.rr ∧
      (selectTarget r).2.rr = (r.rr + 1) % r.urls.length ∧
      (selectTarget r).2.rr < (selectTarget r).2.urls.length) := by
  refine ⟨?_, ?_, ?_⟩
  · intro path0 tgt o pr
    simp [createRoute]
  · intro r tgt h
    simp only [appendTarget, List.length_append, List.length_cons, List.length_nil]
    omega
  · intro r h
    refine ⟨rfl, rfl, ?_⟩
    have hpos : 0 < r.urls.length := Nat.lt_of_le_of_lt (Nat.zero_le _) h
    show (r.rr + 1) % r.urls.length < r.urls.length
    exact Nat.mod_lt _ hpos

/-- C3 witness: the amended selection facts at a one-target route. -/
theorem rrIndex_amended_witness :
    (selectTarget (createRoute "/".data tAlpha () ())).2.rr <
      (selectTarget (createRoute "/".data tAlpha () ())).2.urls.length :=
  ((rrIndex_amended (O := Unit) (P := Unit)).2.2 (createRoute "/".data tAlpha () ())
      (by decide)).2.2

/-- C4 counterexample: `register` then `unregister` of the same target
does not restore the routing table: starting from the empty table it
leaves an empty host bucket behind, and starting from `tDup` (which
already holds a target with the same `href`) the pre-existing target is
removed too and the whole route is spliced out. -/
theorem register_unregister_counterexample :
    unregister (register ([] : Table Unit Unit) hostEx "/".data tAlpha () ())
        hostEx "/".data (some tAlpha) = [(hostEx, [])] ∧
    decide (([(hostEx, ([] : List (Route Unit Unit)))] : Table Unit Unit) =
      ([] : Table Unit Unit)) = false ∧
    unregister (register tDup hostEx "/".data tAlpha () ())
        hostEx "/".data (some tAlpha) = [(hostEx, [])] ∧
    decide (unregister (register tDup hostEx "/".data tAlpha () ())
        hostEx "/".data (some tAlpha) = tDup) = false :=
  ⟨by decide, by decide, by decide, by decide⟩

/-- C4 (amended): `register(src, target)` followed by
`unregister(src, target)` restores the routing table exactly, provided the
host key already exists, its bucket is sorted by descending path length,
and no route for the pathname already holds a target with the same `href`
(each such route's urls being non-empty).  Without these provisos the pair
is not the identity: a fresh host key leaves an empty bucket behind, and a
target with an already-present `href` drags the existing copies with it. -/
theorem register_unregister_amended {O P : Type} (t : Table O P) (host path0 : Str)
    (tgt : Target) (o : O) (pr : P) (bucket : List (Route O P))
    (hb : lookupT t host = some bucket)
    (hsorted : bucketSorted bucket)
    (hurls : ∀ r ∈ bucket, r.path = normalizePathname path0 →
      (∀ u ∈ r.urls, u.href ≠ tgt.href) ∧ r.urls ≠ []) :
    unregister (register t host path0 tgt o pr) host path0 (some tgt) = t := by
  unfold register
  rw [hb]
  simp only [Option.getD_some]
  cases hf : bucket.find? (fun r => decide (r.path = normalizePathname path0)) with
  | some r =>
    simp only []
    rw [unregister_eq _ _ _ _ _ (lookupT_setKey_self t host _)]
    rw [removeFromBucket_pushUrlFirst _ _ _ hurls]
    rw [setKey_setKey]
    exact setKey_self t host bucket hb
  | none =>
    simp only []
    rw [unregister_eq _ _ _ _ _ (lookupT_setKey_self t host _)]
    have hnone : ∀ y ∈ bucket, y.path ≠ normalizePathname path0 := by
      intro y hy
      have h1 := List.find?_eq_none.mp hf y hy
      simpa using h1
    rw [sortRoutes_append_one bucket _ hsorted]
    rw [removeFromBucket_insertA (normalizePathname path0) tgt
      (createRoute (normalizePathname path0) tgt o pr) bucket rfl
      (by simp [createRoute]) hnone]
    rw [setKey_setKey]
    exact setKey_self t host bucket hb

/-- C4 witness: the amended cancellation at a table whose host bucket
exists (and is empty). -/
theorem register_unregister_amended_witness :
    unregister (register [(hostEx, ([] : List (Route Unit Unit)))] hostEx "/".data tAlpha () ())
        hostEx "/".data (some tAlpha) = [(hostEx, [])] :=
  register_unregister_amended [(hostEx, [])] hostEx "/".data tAlpha () () []
    (by decide) (by simp [bucketSorted]) (by simp)

/-- C5 counterexample: adding a resolver with priority equal to an
existing one (here the default resolver, fnId 0) places it BEFORE the
existing one — `_.sortBy(...).reverse()` reverses tie order — while the
claim's stable descending order with ties in insertion order would keep
the existing one first. -/
theorem addResolver_tie_counterexample :
    addResolver [⟨0, 0⟩] [⟨1, 0⟩] = [⟨1, 0⟩, ⟨0, 0⟩] ∧
    claimResolverOrder [⟨0, 0⟩] [⟨1, 0⟩] = [⟨0, 0⟩, ⟨1, 0⟩] ∧
    decide (addResolver [⟨0, 0⟩] [⟨1, 0⟩] = claimResolverOrder [⟨0, 0⟩] [⟨1, 0⟩]) = false :=
  ⟨by decide, by decide, by decide⟩

/-- C5 (amended): after every `addResolver` call the pipeline is ordered
by descending priority with duplicates removed (it is a permutation of the
de-duplicated concatenation of the previous pipeline and the added
resolvers); but among resolvers of equal priority the order of the
pre-sort list is reversed — in particular a resolver added with priority
equal to an existing one is placed before it — so original insertion
order is NOT preserved for ties. -/
theorem addResolver_amended :
    (∀ cur add : List Resolver,
      List.Pairwise (fun a b => b.priority ≤ a.priority) (addResolver cur add)) ∧
    (∀ cur add : List Resolver, (addResolver cur add).Nodup) ∧
    (∀ cur add : List Resolver, List.Perm (addResolver cur add) (uniqFirst (cur ++ add))) ∧
    (∀ a b : Resolver, a ≠ b → a.priority = b.priority → addResolver [a] [b] = [b, a]) := by
  have hperm : ∀ cur add : List Resolver,
      List.Perm (addResolver cur add) (uniqFirst (cur ++ add)) := fun cur add =>
    (List.reverse_perm _).trans (sortAscStable_perm _)
  refine ⟨?_, ?_, hperm, ?_⟩
  · intro cur add
    show List.Pairwise _ (sortAscStable (uniqFirst (cur ++ add))).reverse
    rw [List.pairwise_reverse]
    exact pairwise_sortAscStable _
  · intro cur add
    exact ((hperm cur add).nodup_iff).mpr (uniqFirstAux_nodup _ _).1
  · intro a b hne hp
    have h1 : uniqFirst ([a] ++ [b]) = [a, b] := by
      simp [uniqFirst, uniqFirstAux, Ne.symm hne]
    show (sortAscStable (uniqFirst ([a] ++ [b]))).reverse = [b, a]
    rw [h1]
    simp [sortAscStable, insertAsc, hp]

/-- C5 witness: a fresh equal-priority resolver lands in front. -/
theorem addResolver_amended_witness :
    addResolver [⟨2, 5⟩] [⟨3, 5⟩] = [⟨3, 5⟩, ⟨2, 5⟩] :=
  addResolver_amended.2.2.2 ⟨2, 5⟩ ⟨3, 5⟩ (by decide) rfl

/-- C6: `resolve` scans the settled resolver results in pipeline order and
returns the first coerced route passing the guard
`!route.isResolved || route.path === '/' || startsWith(url, route.path)`:
an `isResolved` route (produced by an external resolver) is discarded
unless its path is `/` or the url starts with its path, while a route not
marked `isResolved` is returned without the prefix check. -/
theorem resolve_isResolved_guard :
    (∀ (url : Str) (inputs : List (Option RouteInput)),
      resolveScan url inputs =
        (inputs.filterMap (fun o => o.bind buildRoute)).find? (routeGuard url)) ∧
    (∀ (url : Str) (inputs : List (Option RouteInput)) (r : ResRoute),
      resolveScan url inputs = some r →
      r.isResolved = true → r.path ≠ "/".data → startsWith url r.path = true) ∧
    (∀ (url : Str) (inputs : List (Option RouteInput)) (r : ResRoute),
      r.isResolved = false →
      resolveScan url (some (RouteInput.table r) :: inputs) = some r) := by
  refine ⟨fun url inputs => resolveScan_eq_find url inputs, ?_, ?_⟩
  · intro url inputs r hscan hres hpath
    rw [resolveScan_eq_find] at hscan
    have h2 := List.find?_some hscan
    simpa [routeGuard, hres, hpath] using h2
  · intro url inputs r hres
    simp [resolveScan, buildRoute, routeGuard, hres]

/-- C6 witness: a guard-passing resolved route is returned, and the
returned route's path satisfies the prefix test. -/
theorem resolve_isResolved_guard_witness :
    startsWith "/foo/bar".data "/foo".data = true :=
  resolve_isResolved_guard.2.1 "/foo/bar".data
    [some (RouteInput.table ⟨"/foo".data, [], true⟩)] ⟨"/foo".data, [], true⟩
    (by decide) (by decide) (by decide)

/-- C7: the default error handler sets status 502 when the error code is
`ECONNREFUSED`; otherwise it sets 500 when response headers have not been
sent and leaves the status unchanged when they have; in every case it ends
the response with the error code string as body. -/
theorem handleProxyError_spec :
    ∀ (errCode : Str) (res : Res),
      (errCode = "ECONNREFUSED".data → (handleProxyError errCode res).statusCode = 502) ∧
      (errCode ≠ "ECONNREFUSED".data → res.headersSent = false →
        (handleProxyError errCode res).statusCode = 500) ∧
      (errCode ≠ "ECONNREFUSED".data → res.headersSent = true →
        (handleProxyError errCode res).statusCode = res.statusCode) ∧
      (handleProxyError errCode res).ended = true ∧
      (handleProxyError errCode res).body = res.body ++ errCode := by
  intro errCode res
  refine ⟨?_, ?_, ?_, ?_, ?_⟩
  · intro he
    simp [handleProxyError, he, writeHead, resEnd]
  · intro he hh
    simp [handleProxyError, he, hh, writeHead, resEnd]
  · intro he hh
    simp [handleProxyError, he, hh, writeHead, resEnd]
  · by_cases he : errCode = "ECONNREFUSED".data <;> by_cases hh : res.headersSent <;>
      simp [handleProxyError, he, hh, writeHead, resEnd]
  · by_cases he : errCode = "ECONNREFUSED".data <;> by_cases hh : res.headersSent <;>
      simp [handleProxyError, he, hh, writeHead, resEnd]

/-- C7 witness: an `ECONNREFUSED` error on a fresh response yields 502. -/
theorem handleProxyError_spec_witness :
    (handleProxyError "ECONNREFUSED".data
      { statusCode := 200, headersSent := false, body := [], ended := false }).statusCode = 502 :=
  (handleProxyError_spec "ECONNREFUSED".data
    { statusCode := 200, headersSent := false, body := [], ended := false }).1 rfl

/-- C8: for a route with an `onRequest` hook, `_getRouteTarget` calls the
hook with the request (after URL rewriting) and the round-robin-selected
target; a hook returning `undefined` leaves the selected target to be
forwarded to, a hook returning `false` makes the server skip forwarding,
and any other defined return value replaces the target for forwarding. -/
theorem onRequest_hook_spec {O P : Type} (onReq : O → Option (Req → Target → HookRet))
    (route : Route O P) (req : Req) (target : Target) (f : Req → Target → HookRet)
    (hT : route.urls.get? route.rr = some target)
    (hf : onReq route.opts = some f) :
    (f (targetAdjustedReq target (rewrittenReq route req)) target = .undef →
      getRouteTarget onReq route req =
        some ({ route with rr := (route.rr + 1) % route.urls.length },
          targetAdjustedReq target (rewrittenReq route req), .tgt target)) ∧
    (f (targetAdjustedReq target (rewrittenReq route req)) target = .ret .fls →
      getRouteTarget onReq route req =
        some ({ route with rr := (route.rr + 1) % route.urls.length },
          targetAdjustedReq target (rewrittenReq route req), .fls)) ∧
    (∀ t2 : Target,
      f (targetAdjustedReq target (rewrittenReq route req)) target = .ret (.tgt t2) →
      getRouteTarget onReq route req =
        some ({ route with rr := (route.rr + 1) % route.urls.length },
          targetAdjustedReq target (rewrittenReq route req), .tgt t2)) ∧
    forwardAction .fls = .skip ∧
    (∀ t2 : Target, forwardAction (.tgt t2) = .forward t2) := by
  refine ⟨?_, ?_, ?_, rfl, fun _ => rfl⟩
  · intro h
    unfold getRouteTarget
    rw [hT]
    simp only [hf, h]
  · intro h
    unfold getRouteTarget
    rw [hT]
    simp only [hf, h]
  · intro t2 h
    unfold getRouteTarget
    rw [hT]
    simp only [hf, h]

/-- C8 witness: an `undefined`-returning hook at a concrete route leaves
the selected target in place. -/
theorem onRequest_hook_spec_witness :
    getRouteTarget (fun _ : Unit => some (fun _ _ => HookRet.undef))
        ({ path := "/".data, rr := 0, urls := [tAlpha], opts := (), proxy := () } : Route Unit Unit)
        { url := "/x".data, origUrl := none, host := none } =
      some ({ path := "/".data, rr := (0 + 1) % 1, urls := [tAlpha], opts := (), proxy := () },
        targetAdjustedReq tAlpha (rewrittenReq
          ({ path := "/".data, rr := 0, urls := [tAlpha], opts := (), proxy := () } : Route Unit Unit)
          { url := "/x".data, origUrl := none, host := none }),
        TVal.tgt tAlpha) :=
  (onRequest_hook_spec (fun _ : Unit => some (fun _ _ => HookRet.undef))
    { path := "/".data, rr := 0, urls := [tAlpha], opts := (), proxy := () }
    { url := "/x".data, origUrl := none, host := none } tAlpha
    (fun _ _ => HookRet.undef) rfl rfl).1 rfl

/-- C9: a `register` call for an existing `(hostname, pathname)` route
only appends the built target to that route's urls: the route keeps its
creation-time `opts` and proxy handle (and its `rr` and position), the
options and proxy passed to the later call are not stored, the other
routes of the bucket are untouched and not re-sorted, and other hosts'
buckets are unchanged. -/
theorem register_existing_route_frame {O P : Type} (t : Table O P) (host path0 : Str)
    (tgt : Target) (o2 : O) (pr2 : P) (bucket pre post : List (Route O P)) (r : Route O P)
    (hb : lookupT t host = some bucket)
    (hbucket : bucket = pre ++ r :: post)
    (hpre : ∀ x ∈ pre, x.path ≠ normalizePathname path0)
    (hr : r.path = normalizePathname path0) :
    register t host path0 tgt o2 pr2 =
      setKey t host (pre ++
        { path := r.path, rr := r.rr, urls := r.urls ++ [tgt], opts := r.opts,
          proxy := r.proxy } :: post) ∧
    (∀ h2 : Str, h2 ≠ host →
      lookupT (register t host path0 tgt o2 pr2) h2 = lookupT t h2) := by
  subst hbucket
  have hmain : register t host path0 tgt o2 pr2 =
      setKey t host (pre ++
        { path := r.path, rr := r.rr, urls := r.urls ++ [tgt], opts := r.opts,
          proxy := r.proxy } :: post) := by
    unfold register
    rw [hb]
    simp only [Option.getD_some]
    rw [find?_first_path _ pre post r hpre hr]
    simp only []
    rw [pushUrlFirst_decomp _ tgt pre post r hpre hr]
    rfl
  refine ⟨hmain, ?_⟩
  intro h2 hne
  rw [hmain]
  exact lookupT_setKey_ne _ _ _ _ hne

/-- C9 witness: re-registering path `/a` on an existing route keeps opts 1
and proxy 2 from creation and ignores the later call's opts 7 / proxy 9. -/
theorem register_existing_route_frame_witness :
    register [("h".data, [({ path := "/a".data, rr := 0, urls := [tAlpha], opts := 1, proxy := 2 } : Route Nat Nat)])]
        "h".data "/a".data tBeta 7 9 =
      setKey [("h".data, [({ path := "/a".data, rr := 0, urls := [tAlpha], opts := 1, proxy := 2 } : Route Nat Nat)])]
        "h".data
        [{ path := "/a".data, rr := 0, urls := [tAlpha, tBeta], opts := 1, proxy := 2 }] :=
  (register_existing_route_frame
    [("h".data, [{ path := "/a".data, rr := 0, urls := [tAlpha], opts := 1, proxy := 2 }])]
    "h".data "/a".data tBeta 7 9
    [{ path := "/a".data, rr := 0, urls := [tAlpha], opts := 1, proxy := 2 }] [] []
    { path := "/a".data, rr := 0, urls := [tAlpha], opts := 1, proxy := 2 }
    (by decide) rfl (by simp) (by decide)).1

/-- C10: `notFound(callback)` replaces the module-level not-found
responder shared by every `ReverseProxy` instance in the process: after
the call, the HTTP, HTTPS and WebSocket-upgrade 404 paths of any instance
invoke the new callback; a non-function argument is rejected with an
assertion error. -/
theorem notFound_module_level :
    (∀ (m : ProxyModule) (f : Req → Res → Res),
      notFound m (.func f) = .ok { respondNotFoundCb := f }) ∧
    (∀ (f : Req → Res → Res) (i : Inst) (req : Req) (res : Res),
      serverRespondNotFound { respondNotFoundCb := f } i req res = f req res ∧
      httpsServerRespondNotFound { respondNotFoundCb := f } i req res = f req res ∧
      websocketsRespondNotFound { respondNotFoundCb := f } i req res = f req res) ∧
    (∀ m : ProxyModule,
      notFound m .notFunc = .error "notFound callback is not a function".data) :=
  ⟨fun _ _ => rfl, fun _ _ _ _ => ⟨rfl, rfl, rfl⟩, fun _ => rfl⟩
